import Mathlib

set_option maxRecDepth 10000

/-!
Shallow embedding of `Vendor_Payments/Vendor_Payments.py`, a pandas-based
vendor-payment analysis script, together with proofs about its cleaning,
aggregation and anomaly-detection stages.

Modelling conventions:
* a pandas `DataFrame` is a list of column names plus a list of rows, each row
  a list of cells;
* a cell is either null (`NaN`/`NaT`), a string, a rational number (standing
  for the script's numeric amounts), or a calendar date;
* strings are lists of characters (`Str := List Char`) so that the string
  transformations of the script (strip, replace, title-case) are ordinary
  list functions;
* column access on a missing column raises `KeyError` in pandas; fallible
  operations therefore return `Option`, with `none` standing for the raised
  exception.
-/

namespace VendorPayments

/-- Strings are modelled as lists of characters. -/
abbrev Str := List Char

/-! ### Character-level case maps

Python's `str.title()` and the title-casing of the vendor column work
character by character on ASCII letters: `upperChar`/`lowerChar` are the
ASCII case maps (identity on every other character). -/

/-- ASCII lower-to-upper case map; identity on all other characters. -/
def upperChar : Char → Char
  | 'a' => 'A' | 'b' => 'B' | 'c' => 'C' | 'd' => 'D' | 'e' => 'E'
  | 'f' => 'F' | 'g' => 'G' | 'h' => 'H' | 'i' => 'I' | 'j' => 'J'
  | 'k' => 'K' | 'l' => 'L' | 'm' => 'M' | 'n' => 'N' | 'o' => 'O'
  | 'p' => 'P' | 'q' => 'Q' | 'r' => 'R' | 's' => 'S' | 't' => 'T'
  | 'u' => 'U' | 'v' => 'V' | 'w' => 'W' | 'x' => 'X' | 'y' => 'Y'
  | 'z' => 'Z' | c => c

/-- ASCII upper-to-lower case map; identity on all other characters. -/
def lowerChar : Char → Char
  | 'A' => 'a' | 'B' => 'b' | 'C' => 'c' | 'D' => 'd' | 'E' => 'e'
  | 'F' => 'f' | 'G' => 'g' | 'H' => 'h' | 'I' => 'i' | 'J' => 'j'
  | 'K' => 'k' | 'L' => 'l' | 'M' => 'm' | 'N' => 'n' | 'O' => 'o'
  | 'P' => 'p' | 'Q' => 'q' | 'R' => 'r' | 'S' => 's' | 'T' => 't'
  | 'U' => 'u' | 'V' => 'v' | 'W' => 'w' | 'X' => 'x' | 'Y' => 'y'
  | 'Z' => 'z' | c => c

/-- Python `str.strip()`: drop whitespace from both ends. -/
def trimL (s : Str) : Str :=
  ((s.dropWhile Char.isWhitespace).reverse.dropWhile Char.isWhitespace).reverse

/-- Python `str.replace(" ", "_")`: a one-character pattern replacement is a
pointwise map. -/
def replaceSpaceU (s : Str) : Str :=
  s.map fun c => if c = ' ' then '_' else c

/-- Column-name normalization of `clean_data`:
`df.columns.str.strip().str.replace(" ", "_")`. -/
def normName (s : Str) : Str := replaceSpaceU (trimL s)

/-- A string with no whitespace at either end (the fixed points of
`trimL`). -/
def noWsEdge (l : Str) : Prop :=
  (∀ a, l.head? = some a → a.isWhitespace = false) ∧
  (∀ a, l.getLast? = some a → a.isWhitespace = false)

/-- One character of Python `str.title()`: an alphabetic character is
uppercased at a word start (previous character not alphabetic) and lowercased
otherwise; non-alphabetic characters pass through. -/
def titleChar (prevAlpha : Bool) (c : Char) : Char :=
  if c.isAlpha then (if prevAlpha then lowerChar c else upperChar c) else c

/-- Worker for `titleL`; the flag records whether the previous character was
alphabetic. -/
def titleGo : Bool → Str → Str
  | _, [] => []
  | b, c :: cs => titleChar b c :: titleGo c.isAlpha cs

/-- Python `str.title()`. -/
def titleL (s : Str) : Str := titleGo false s

/-! ### Numeric and date parsing

`pd.to_numeric(..., errors='coerce')` and `pd.to_datetime(..., errors='coerce')`
turn unparseable values into nulls.  The ledger's amounts are decimal
numerals and its run dates ISO `YYYY-MM-DD` strings; the parsers below cover
exactly that grammar (optionally signed decimal numerals, and ISO dates with
calendar validity), everything else coercing to null. -/

/-- Numeric value of a digit string (most significant digit first). -/
def digitsToNat (ds : Str) : Nat :=
  ds.foldl (fun n c => 10 * n + (c.toNat - 48)) 0

/-- Parse an optionally signed decimal numeral (`"100.50"`, `"-3"`, `"7."`,
`".25"`) into a rational; any other string fails. -/
def parseDecimal (s : Str) : Option ℚ :=
  let t := trimL s
  let signed : Bool × Str :=
    match t with
    | '-' :: rest => (true, rest)
    | '+' :: rest => (false, rest)
    | _ => (false, t)
  let u := signed.2
  let ip := u.takeWhile Char.isDigit
  let rest := u.dropWhile Char.isDigit
  let mag : Option (Nat × Nat) :=
    match rest with
    | [] => if ip.isEmpty then none else some (digitsToNat ip, 0)
    | '.' :: fp =>
      if fp.all Char.isDigit && !(ip.isEmpty && fp.isEmpty) then
        some (digitsToNat ip * 10 ^ fp.length + digitsToNat fp, fp.length)
      else none
    | _ => none
  mag.map fun p =>
    mkRat (if signed.1 then -(p.1 : Int) else (p.1 : Int)) (10 ^ p.2)

/-- Gregorian leap-year test. -/
def isLeap (y : Nat) : Bool :=
  (y % 4 == 0 && y % 100 != 0) || (y % 400 == 0)

/-- Number of days in a month. -/
def daysInMonth (y m : Nat) : Nat :=
  if m = 2 then (if isLeap y then 29 else 28)
  else if m = 4 ∨ m = 6 ∨ m = 9 ∨ m = 11 then 30
  else 31

/-- Parse an ISO `YYYY-MM-DD` date with calendar validity checks; any other
string fails. -/
def parseISODate (s : Str) : Option (Nat × Nat × Nat) :=
  let ys := s.takeWhile Char.isDigit
  match s.dropWhile Char.isDigit with
  | '-' :: r2 =>
    let ms := r2.takeWhile Char.isDigit
    match r2.dropWhile Char.isDigit with
    | '-' :: r4 =>
      let ds := r4.takeWhile Char.isDigit
      if r4.dropWhile Char.isDigit = [] ∧ ys ≠ [] ∧ ms ≠ [] ∧ ds ≠ [] then
        let y := digitsToNat ys
        let m := digitsToNat ms
        let d := digitsToNat ds
        if 1 ≤ m ∧ m ≤ 12 ∧ 1 ≤ d ∧ d ≤ daysInMonth y m then
          some (y, m, d)
        else none
      else none
    | _ => none
  | _ => none

/-! ### Cells and data frames -/

/-- One cell of the table: null (`NaN`/`NaT`), a string, a numeric amount, or
a parsed calendar date. -/
inductive Cell where
  | null : Cell
  | str : Str → Cell
  | num : ℚ → Cell
  | date : Nat → Nat → Nat → Cell
deriving DecidableEq

/-- Null test (`pd.isna`). -/
def Cell.isNull : Cell → Bool
  | .null => true
  | _ => false

/-- Numeric reading of a cell, with nulls contributing `0`; this is how
pandas' `sum` (which skips `NaN`) reads a numeric column. -/
def Cell.toQ : Cell → ℚ
  | .num q => q
  | _ => 0

/-- An in-memory table: column names plus rows of cells. -/
structure DataFrame where
  cols : List Str
  rows : List (List Cell)
deriving DecidableEq

/-- Cell of a row at a column position; reading past the end of a row gives
null (missing data). -/
def cellAt : List Cell → Nat → Cell
  | [], _ => .null
  | c :: _, 0 => c
  | _ :: r, n + 1 => cellAt r n

/-- Position of the first column with the given name, `none` when the column
is absent (pandas raises `KeyError`). -/
def findCol : List Str → Str → Option Nat
  | [], _ => none
  | c :: cs, v => if c = v then some 0 else (findCol cs v).map (· + 1)

/-- Position of a named column in a data frame. -/
def colIdx (df : DataFrame) (c : Str) : Option Nat := findCol df.cols c

/-- Positions of several named columns; fails (`KeyError`) when any is
absent. -/
def colIdxs (df : DataFrame) : List Str → Option (List Nat)
  | [] => some []
  | c :: cs =>
    match colIdx df c, colIdxs df cs with
    | some i, some is => some (i :: is)
    | _, _ => none

/-- The source's column names, as character lists. -/
def rVENDOR : Str := "VENDOR".toList
/-- Column name of the payment amount. -/
def rCHKSUBTOT : Str := "CHKSUBTOT".toList
/-- Column name of the run date. -/
def rRUNDATE : Str := "RUNDATE".toList
/-- Column name of the optional department. -/
def rDEPARTMENT : Str := "DEPARTMENT".toList

/-- `df[c] = df[c].map f`: rewrite one column cell-wise; fails with
`KeyError` when the column is absent. -/
def setCol (df : DataFrame) (c : Str) (f : Cell → Cell) : Option DataFrame :=
  match colIdx df c with
  | none => none
  | some i =>
    some ⟨df.cols, df.rows.map fun r => r.set i (f (cellAt r i))⟩

/-- `df.dropna(subset=...)`: keep the rows whose cells at all the subset
columns are non-null; fails with `KeyError` when a subset column is
absent. -/
def dropna (df : DataFrame) (subset : List Str) : Option DataFrame :=
  match colIdxs df subset with
  | none => none
  | some is =>
    some ⟨df.cols, df.rows.filter fun r => is.all fun i => !(cellAt r i).isNull⟩

/-- `df['VENDOR'].str.strip().str.title()`: the pandas `.str` accessor maps
every non-string cell (including nulls) to `NaN`. -/
def vendorCleanCell : Cell → Cell
  | .str s => .str (titleL (trimL s))
  | _ => .null

/-- `pd.to_datetime(..., errors='coerce')` on one cell: already-parsed dates
pass through, ISO date strings parse, everything else (including nulls)
coerces to null. -/
def toDatetimeCell : Cell → Cell
  | .date y m d => .date y m d
  | .str s =>
    match parseISODate (trimL s) with
    | some (y, m, d) => .date y m d
    | none => .null
  | _ => .null

/-- `pd.to_numeric(..., errors='coerce')` on one cell: numbers pass through,
decimal numerals parse, everything else (including nulls) coerces to null. -/
def toNumericCell : Cell → Cell
  | .num q => .num q
  | .str s =>
    match parseDecimal s with
    | some q => .num q
    | none => .null
  | _ => .null

/-- Step 2 of the cleaning stage:
`if 'RUNDATE' in df.columns: df['RUNDATE'] = pd.to_datetime(df['RUNDATE'], errors='coerce')`.
The `none` branch of the inner match is unreachable because of the guard. -/
def runDateStep (df1 : DataFrame) : DataFrame :=
  if rRUNDATE ∈ df1.cols then
    match setCol df1 rRUNDATE toDatetimeCell with
    | some d => d
    | none => df1
  else df1

/-- The script's `clean_data`, step for step:

1. `df.columns = df.columns.str.strip().str.replace(" ", "_")`
2. `if 'RUNDATE' in df.columns: df['RUNDATE'] = pd.to_datetime(df['RUNDATE'], errors='coerce')`
3. `df['VENDOR'] = df['VENDOR'].str.strip().str.title()` (raises when absent)
4. `df = df.dropna(subset=['VENDOR', 'CHKSUBTOT', 'RUNDATE'])` (raises when a subset column is absent)
5. `df['CHKSUBTOT'] = pd.to_numeric(df['CHKSUBTOT'], errors='coerce')`
6. `df = df.dropna(subset=['CHKSUBTOT'])`

`none` models an uncaught `KeyError`. -/
def clean_data (df : DataFrame) : Option DataFrame :=
  (setCol (runDateStep ⟨df.cols.map normName, df.rows⟩) rVENDOR vendorCleanCell).bind
    fun df3 => (dropna df3 [rVENDOR, rCHKSUBTOT, rRUNDATE]).bind
      fun df4 => (setCol df4 rCHKSUBTOT toNumericCell).bind
        fun df5 => dropna df5 [rCHKSUBTOT]

/-- The required-field condition of the cleaning stage, read off the
original row (`vi`, `ai`, `di` the positions of `VENDOR`, `CHKSUBTOT`,
`RUNDATE`): the cleaned vendor, the raw amount, and the parsed run date are
non-null, and the amount is numeric after coercion. -/
def survives (vi ai di : Nat) (r : List Cell) : Bool :=
  !(vendorCleanCell (cellAt r vi)).isNull &&
  !(cellAt r ai).isNull &&
  !(toDatetimeCell (cellAt r di)).isNull &&
  !(toNumericCell (cellAt r ai)).isNull

/-- The cell-wise transformation the cleaning stage applies to a row, in the
source's order: parse the run date, then clean the vendor, then coerce the
amount. -/
def cleanRow (vi ai di : Nat) (r : List Cell) : List Cell :=
  let r1 := r.set di (toDatetimeCell (cellAt r di))
  let r2 := r1.set vi (vendorCleanCell (cellAt r1 vi))
  r2.set ai (toNumericCell (cellAt r2 ai))

/-! ### Aggregation (`total_payments_by_vendor`, `payment_frequency`)

A pandas `Series` keyed by vendor is modelled as an association list.
`groupby` excludes null keys; `sort_values(ascending=False)` /
`value_counts()` order by descending value. -/

/-- Ordering of vendor/total pairs by descending total, as produced by
`sort_values(ascending=False)`. -/
def descQ (a b : Cell × ℚ) : Prop := b.2 ≤ a.2

instance : DecidableRel descQ := fun a b => inferInstanceAs (Decidable (b.2 ≤ a.2))

instance : IsTotal (Cell × ℚ) descQ := ⟨fun a b => Or.symm (le_total a.2 b.2)⟩

instance : IsTrans (Cell × ℚ) descQ := ⟨fun _ _ _ hab hbc => le_trans hbc hab⟩

/-- Ordering of vendor/count pairs by descending count, as produced by
`value_counts()`. -/
def descN (a b : Cell × Nat) : Prop := b.2 ≤ a.2

instance : DecidableRel descN := fun a b => inferInstanceAs (Decidable (b.2 ≤ a.2))

instance : IsTotal (Cell × Nat) descN := ⟨fun a b => Or.symm (le_total a.2 b.2)⟩

instance : IsTrans (Cell × Nat) descN := ⟨fun _ _ _ hab hbc => le_trans hbc hab⟩

/-- The distinct non-null values of column `vi`, in first-appearance order:
the groups of a `groupby` on that column (null keys are excluded). -/
def groupKeys (df : DataFrame) (vi : Nat) : List Cell :=
  ((df.rows.map (cellAt · vi)).filter fun c => !c.isNull).dedup

/-- Sum of the amounts (column `ai`) of the rows whose cell at column `vi`
equals `k`; pandas `sum` skips nulls. -/
def groupSum (df : DataFrame) (vi ai : Nat) (k : Cell) : ℚ :=
  ((df.rows.filter fun r => cellAt r vi == k).map fun r => (cellAt r ai).toQ).sum

/-- Number of rows whose cell at column `vi` equals `k`. -/
def groupCount (df : DataFrame) (vi : Nat) (k : Cell) : Nat :=
  (df.rows.filter fun r => cellAt r vi == k).length

/-- The script's `total_payments_by_vendor`:
`df.groupby('VENDOR')['CHKSUBTOT'].sum().sort_values(ascending=False)`,
returned in full (only the head is printed). -/
def total_payments_by_vendor (df : DataFrame) : Option (List (Cell × ℚ)) :=
  match colIdx df rVENDOR, colIdx df rCHKSUBTOT with
  | some vi, some ai =>
    some (((groupKeys df vi).map fun k => (k, groupSum df vi ai k)).insertionSort descQ)
  | _, _ => none

/-- The script's `payment_frequency`: `df['VENDOR'].value_counts()`,
returned in full (only the head is printed). -/
def payment_frequency (df : DataFrame) : Option (List (Cell × Nat)) :=
  match colIdx df rVENDOR with
  | some vi =>
    some (((groupKeys df vi).map fun k => (k, groupCount df vi k)).insertionSort descN)
  | none => none

/-! ### Anomaly detection (`detect_anomalies`) -/

/-- The numeric values of column `ai` (nulls skipped), as read by pandas
`quantile`. -/
def numericVals (df : DataFrame) (ai : Nat) : List ℚ :=
  (df.rows.map (cellAt · ai)).filterMap fun c =>
    match c with
    | .num q => some q
    | _ => none

/-- Linear interpolation between order statistics: `s[i] + (h - i) * (s[i+1] - s[i])`
with `i = floor h`, reading off the end of `s` as repeating the last value. -/
def interpAt (s : List ℚ) (h : ℚ) : ℚ :=
  let i := (Rat.floor h).toNat
  let lo := s.getD i 0
  let hi := s.getD (i + 1) lo
  lo + (h - (i : ℚ)) * (hi - lo)

/-- `Series.quantile(0.99)` with the default linear interpolation between
order statistics: with the `n` non-null values sorted ascending as `s`, the
result is `interpAt s (0.99 * (n - 1))`; an empty series gives `NaN` (here
`none`). -/
def quantile99 (xs : List ℚ) : Option ℚ :=
  match xs with
  | [] => none
  | _ :: _ =>
    some (interpAt (xs.insertionSort (· ≤ ·)) (mkRat 99 100 * ((xs.length : ℚ) - 1)))

/-- The script's `detect_anomalies`: compute the 99th-percentile threshold of
`CHKSUBTOT` and keep the rows strictly above it
(`df[df['CHKSUBTOT'] > threshold]`).  With an empty column the threshold is
`NaN` and every comparison with it is false, so no row is kept; a comparison
of a null (or non-numeric) cell with the threshold is likewise false. -/
def detect_anomalies (df : DataFrame) : Option DataFrame :=
  match colIdx df rCHKSUBTOT with
  | none => none
  | some ai =>
    match quantile99 (numericVals df ai) with
    | none => some ⟨df.cols, []⟩
    | some t =>
      some ⟨df.cols, df.rows.filter fun r =>
        match cellAt r ai with
        | .num q => decide (t < q)
        | _ => false⟩

/-! ### Heatmap (`department_vendor_heatmap`) -/

/-- Lexicographic comparison of character lists (by code point), driving the
ascending sort of the pivot-table index. -/
def strLeB : Str → Str → Bool
  | [], _ => true
  | _ :: _, [] => false
  | a :: as, b :: bs =>
    if a < b then true
    else if b < a then false
    else strLeB as bs

/-- String payload of a cell (pivot keys are vendor/department strings). -/
def cellKeyStr : Cell → Str
  | .str s => s
  | _ => []

/-- Ascending name order on key cells, as used by the pivot-table index
sort. -/
def cellNameLe (a b : Cell) : Prop := strLeB (cellKeyStr a) (cellKeyStr b) = true

instance : DecidableRel cellNameLe := fun a b =>
  inferInstanceAs (Decidable (strLeB (cellKeyStr a) (cellKeyStr b) = true))

/-- The cross-tabulation handed to the heatmap: row keys, column keys, and
the matrix of aggregated amounts. -/
structure Pivot where
  rowKeys : List Cell
  colKeys : List Cell
  entries : List (List ℚ)
deriving DecidableEq

/-- `df.pivot_table(index='VENDOR', columns='DEPARTMENT', values='CHKSUBTOT',
aggfunc='sum', fill_value=0)`: one row per distinct vendor and one column per
distinct department (both sorted ascending, pandas' default `sort=True`),
each entry the summed amount of the matching rows, with combinations that
match no row filled with `0`. -/
def pivot_table (df : DataFrame) : Option Pivot :=
  match colIdx df rVENDOR, colIdx df rDEPARTMENT, colIdx df rCHKSUBTOT with
  | some vi, some di, some ai =>
    let vkeys := (groupKeys df vi).insertionSort cellNameLe
    let dkeys := (groupKeys df di).insertionSort cellNameLe
    some ⟨vkeys, dkeys,
      vkeys.map fun v => dkeys.map fun d =>
        ((df.rows.filter fun r => cellAt r vi == v && cellAt r di == d).map
          fun r => (cellAt r ai).toQ).sum⟩
  | _, _, _ => none

/-- Restriction of a pivot to its first 20 rows: `pivot.head(20)`, the data
actually rendered by `sns.heatmap`. -/
def Pivot.head20 (p : Pivot) : Pivot :=
  ⟨p.rowKeys.take 20, p.colKeys, p.entries.take 20⟩

/-- The script's `department_vendor_heatmap`: when a `DEPARTMENT` column
exists, build the pivot table and render `pivot.head(20)`; otherwise do
nothing.  `some none` models the silent skip, `some (some p)` a rendering of
the data `p`, and `none` an uncaught exception inside the guarded body. -/
def department_vendor_heatmap (df : DataFrame) : Option (Option Pivot) :=
  if rDEPARTMENT ∈ df.cols then
    match pivot_table df with
    | none => none
    | some p => some (some p.head20)
  else some none

/-! ### Concrete tables used to instantiate the theorems -/

/-- A raw one-row table: vendor `" acme corp "`, amount `"100.50"`, date
`"2024-01-15"` (the spec's cleaning scenario). -/
def dfScenario : DataFrame :=
  ⟨[rVENDOR, rCHKSUBTOT, rRUNDATE],
   [[.str " acme corp ".toList, .str "100.50".toList, .str "2024-01-15".toList]]⟩

/-- A cleaned table with two rows for vendor `"X"`, amounts `100` and `200`
(the spec's aggregation scenario). -/
def dfX : DataFrame :=
  ⟨[rVENDOR, rCHKSUBTOT, rRUNDATE],
   [[.str "X".toList, .num 100, .date 2024 1 1],
    [.str "X".toList, .num 200, .date 2024 1 2]]⟩

/-- A cleaned table with 21 distinct vendors whose first-appearance order
(`B`, `C`, …, `U`, then `A` last) differs from name order, and a department
column; it separates "first 20 vendors in table order" from the first 20
rows of the name-sorted pivot index. -/
def dfHeat : DataFrame :=
  ⟨[rVENDOR, rCHKSUBTOT, rDEPARTMENT],
   (("BCDEFGHIJKLMNOPQRSTU".toList ++ ['A']).map fun c =>
     [.str [c], .num 1, .str "D".toList])⟩

/-- The cleaned form of `dfScenario`: vendor `"Acme Corp"`, amount `201/2`
(that is, `100.50`), date 2024-01-15. -/
def dfScenarioClean : DataFrame :=
  ⟨[rVENDOR, rCHKSUBTOT, rRUNDATE],
   [[.str "Acme Corp".toList, .num (mkRat 201 2), .date 2024 1 15]]⟩

/-- The pivot data the heatmap renders for `dfHeat`: the first 20 vendors in
ascending name order (`A` … `T`), one department column, every entry `1`. -/
def pivotHeat : Pivot :=
  ⟨"ABCDEFGHIJKLMNOPQRST".toList.map fun c => .str [c],
   [.str "D".toList],
   "ABCDEFGHIJKLMNOPQRST".toList.map fun _ => [1]⟩

/-- The distinct non-null vendors of a table in first-appearance (table)
order, truncated to 20: what "the first 20 vendors in table order" denotes. -/
def firstVendorsTableOrder (df : DataFrame) (vi : Nat) : List Cell :=
  (groupKeys df vi).take 20

/-! ## Library lemmas

Basic facts about column lookup, row access and the character-level string
operations, used by the main theorems below. -/

theorem findCol_getElem {cs : List Str} {v : Str} {i : Nat}
    (h : findCol cs v = some i) : cs[i]? = some v := by
  induction cs generalizing i with
  | nil => simp [findCol] at h
  | cons c cs ih =>
    rw [findCol] at h
    by_cases hc : c = v
    · simp only [if_pos hc, Option.some.injEq] at h
      subst hc; cases h; simp
    · simp only [if_neg hc, Option.map_eq_some'] at h
      obtain ⟨j, hj, rfl⟩ := h
      simpa using ih hj

theorem findCol_none {cs : List Str} {v : Str} :
    findCol cs v = none ↔ v ∉ cs := by
  induction cs with
  | nil => simp [findCol]
  | cons c cs ih =>
    rw [findCol]
    by_cases hc : c = v
    · simp [hc]
    · simp [hc, Option.map_eq_none', ih, Ne.symm hc]

theorem findCol_isSome_of_mem {cs : List Str} {v : Str} (h : v ∈ cs) :
    (findCol cs v).isSome := by
  rw [Option.isSome_iff_ne_none]
  intro hn
  exact (findCol_none.mp hn) h

theorem findCol_ne {cs : List Str} {v w : Str} {i j : Nat}
    (hv : findCol cs v = some i) (hw : findCol cs w = some j)
    (hvw : v ≠ w) : i ≠ j := by
  intro hij
  subst hij
  have h1 := findCol_getElem hv
  have h2 := findCol_getElem hw
  rw [h1] at h2
  exact hvw (Option.some.inj h2)

theorem cellAt_nil (i : Nat) : cellAt [] i = .null := rfl

theorem cellAt_set_same (r : List Cell) (i : Nat) (v : Cell) :
    cellAt (r.set i v) i = if i < r.length then v else .null := by
  induction r generalizing i with
  | nil => simp [cellAt]
  | cons a r ih =>
    cases i with
    | zero => simp [List.set, cellAt]
    | succ n => simpa [List.set, cellAt, Nat.succ_lt_succ_iff] using ih n

theorem cellAt_set_ne {r : List Cell} {i j : Nat} {v : Cell} (h : i ≠ j) :
    cellAt (r.set i v) j = cellAt r j := by
  induction r generalizing i j with
  | nil => simp [List.set]
  | cons a r ih =>
    cases i with
    | zero =>
      cases j with
      | zero => exact absurd rfl h
      | succ m => simp [List.set, cellAt]
    | succ n =>
      cases j with
      | zero => simp [List.set, cellAt]
      | succ m => simpa [List.set, cellAt] using ih (by omega)

theorem set_cellAt_self (r : List Cell) (i : Nat) :
    r.set i (cellAt r i) = r := by
  induction r generalizing i with
  | nil => rfl
  | cons a r ih =>
    cases i with
    | zero => rfl
    | succ n => simpa [List.set, cellAt] using ih n

/-- Applying a transform whose value at null is null to the cell at `i` and
storing it back reads off as the transformed cell, whether or not `i` is in
range. -/
theorem cellAt_set_transform (r : List Cell) (i : Nat) (f : Cell → Cell)
    (hf : f .null = .null) :
    cellAt (r.set i (f (cellAt r i))) i = f (cellAt r i) := by
  rw [cellAt_set_same]
  by_cases h : i < r.length
  · simp [h]
  · have : cellAt r i = .null := by
      clear hf
      induction r generalizing i with
      | nil => rfl
      | cons a r ih =>
        cases i with
        | zero => simp at h
        | succ n =>
          refine ih n ?_
          simp only [List.length_cons] at h
          omega
    simp [h, this, hf]

/-! ### Character-level lemmas -/

theorem lowerChar_eq_self_or (c : Char) :
    lowerChar c = c ∨ c ∈ "ABCDEFGHIJKLMNOPQRSTUVWXYZ".toList := by
  unfold lowerChar
  split
  all_goals first
    | (right; decide)
    | (left; rfl)

theorem upperChar_eq_self_or (c : Char) :
    upperChar c = c ∨ c ∈ "abcdefghijklmnopqrstuvwxyz".toList := by
  unfold upperChar
  split
  all_goals first
    | (right; decide)
    | (left; rfl)

theorem lowerChar_props (c : Char) :
    lowerChar (lowerChar c) = lowerChar c ∧
    (lowerChar c).isAlpha = c.isAlpha ∧
    (lowerChar c).isWhitespace = c.isWhitespace := by
  rcases lowerChar_eq_self_or c with h | h
  · rw [h]; exact ⟨h, rfl, rfl⟩
  · fin_cases h <;> exact (by decide)

theorem upperChar_props (c : Char) :
    upperChar (upperChar c) = upperChar c ∧
    (upperChar c).isAlpha = c.isAlpha ∧
    (upperChar c).isWhitespace = c.isWhitespace := by
  rcases upperChar_eq_self_or c with h | h
  · rw [h]; exact ⟨h, rfl, rfl⟩
  · fin_cases h <;> exact (by decide)

theorem titleChar_isAlpha (b : Bool) (c : Char) :
    (titleChar b c).isAlpha = c.isAlpha := by
  unfold titleChar
  by_cases ha : c.isAlpha
  · cases b <;> simp [ha, (upperChar_props c).2.1, (lowerChar_props c).2.1]
  · simp [ha]

theorem titleChar_isWhitespace (b : Bool) (c : Char) :
    (titleChar b c).isWhitespace = c.isWhitespace := by
  unfold titleChar
  by_cases ha : c.isAlpha
  · cases b <;> simp [ha, (upperChar_props c).2.2, (lowerChar_props c).2.2]
  · simp [ha]

theorem titleChar_titleChar (b : Bool) (c : Char) :
    titleChar b (titleChar b c) = titleChar b c := by
  unfold titleChar
  by_cases ha : c.isAlpha
  · cases b
    · simp [ha, (upperChar_props c).2.1, (upperChar_props c).1]
    · simp [ha, (lowerChar_props c).2.1, (lowerChar_props c).1]
  · simp [ha]

theorem titleGo_titleGo (l : Str) : ∀ b, titleGo b (titleGo b l) = titleGo b l := by
  induction l with
  | nil => intro b; rfl
  | cons c cs ih =>
    intro b
    rw [titleGo, titleGo, titleChar_isAlpha, titleChar_titleChar, ih]

theorem titleL_titleL (l : Str) : titleL (titleL l) = titleL l :=
  titleGo_titleGo l false

theorem titleGo_map_isWhitespace (l : Str) :
    ∀ b, (titleGo b l).map Char.isWhitespace = l.map Char.isWhitespace := by
  induction l with
  | nil => intro b; rfl
  | cons c cs ih =>
    intro b
    rw [titleGo, List.map_cons, List.map_cons, titleChar_isWhitespace, ih]

/-! ### Trimming lemmas -/

theorem head?_dropWhile_ws {l : Str} {a : Char}
    (h : (l.dropWhile Char.isWhitespace).head? = some a) :
    a.isWhitespace = false := by
  induction l with
  | nil => simp [List.dropWhile] at h
  | cons c cs ih =>
    rw [List.dropWhile_cons] at h
    by_cases hc : c.isWhitespace
    · exact ih (by simpa [hc] using h)
    · simp only [hc] at h
      simp only [Bool.false_eq_true, if_false, List.head?_cons,
        Option.some.injEq] at h
      subst h
      simpa using hc

theorem dropWhile_ws_eq_self {l : Str}
    (h : ∀ a, l.head? = some a → a.isWhitespace = false) :
    l.dropWhile Char.isWhitespace = l := by
  cases l with
  | nil => rfl
  | cons c cs =>
    rw [List.dropWhile_cons, if_neg]
    simp [h c rfl]

theorem getLast?_of_suffix {l₁ l₂ : Str} (h : l₁ <:+ l₂) (hne : l₁ ≠ []) :
    l₂.getLast? = l₁.getLast? := by
  obtain ⟨t, rfl⟩ := h
  rw [List.getLast?_append]
  cases hl : l₁.getLast? with
  | none => exact absurd (List.getLast?_eq_none_iff.mp hl) hne
  | some a => rfl

theorem noWsEdge_trimL (l : Str) : noWsEdge (trimL l) := by
  unfold trimL
  set u := l.dropWhile Char.isWhitespace with hu
  set v := u.reverse.dropWhile Char.isWhitespace with hv
  constructor
  · intro a ha
    rw [List.head?_reverse] at ha
    by_cases hvnil : v = []
    · simp [hvnil] at ha
    · rw [← getLast?_of_suffix (hv ▸ List.dropWhile_suffix _) hvnil,
        List.getLast?_reverse] at ha
      exact head?_dropWhile_ws (hu ▸ ha)
  · intro a ha
    rw [List.getLast?_reverse] at ha
    exact head?_dropWhile_ws (hv ▸ ha)

theorem trimL_eq_self {l : Str} (h : noWsEdge l) : trimL l = l := by
  unfold trimL
  rw [dropWhile_ws_eq_self h.1]
  have : l.reverse.dropWhile Char.isWhitespace = l.reverse := by
    refine dropWhile_ws_eq_self ?_
    intro a ha
    rw [List.head?_reverse] at ha
    exact h.2 a ha
  rw [this, List.reverse_reverse]

theorem trimL_trimL (l : Str) : trimL (trimL l) = trimL l :=
  trimL_eq_self (noWsEdge_trimL l)

/-- A pointwise whitespace-preserving transformation preserves the
trimmed-edges property. -/
theorem noWsEdge_of_map_ws_eq {l l' : Str}
    (hmap : l'.map Char.isWhitespace = l.map Char.isWhitespace)
    (h : noWsEdge l) : noWsEdge l' := by
  constructor
  · intro a ha
    have := congrArg List.head? hmap
    rw [List.head?_map, List.head?_map, ha] at this
    cases hb : l.head? with
    | none => rw [hb] at this; simp at this
    | some b =>
      rw [hb] at this
      simp only [Option.map_some', Option.some.injEq] at this
      rw [this]
      exact h.1 b hb
  · intro a ha
    have hmap' : l'.reverse.map Char.isWhitespace = l.reverse.map Char.isWhitespace := by
      rw [List.map_reverse, List.map_reverse, hmap]
    have := congrArg List.head? hmap'
    rw [List.head?_map, List.head?_map, ← List.getLast?_eq_head?_reverse,
      ← List.getLast?_eq_head?_reverse, ha] at this
    cases hb : l.getLast? with
    | none => rw [hb] at this; simp at this
    | some b =>
      rw [hb] at this
      simp only [Option.map_some', Option.some.injEq] at this
      rw [this]
      exact h.2 b hb

theorem noWsEdge_titleL {l : Str} (h : noWsEdge l) : noWsEdge (titleL l) :=
  noWsEdge_of_map_ws_eq (titleGo_map_isWhitespace l false) h

theorem noWsEdge_replaceSpaceU {l : Str} (h : noWsEdge l) :
    noWsEdge (replaceSpaceU l) := by
  have hchar : ∀ c : Char, c.isWhitespace = false →
      ((if c = ' ' then '_' else c) : Char).isWhitespace = false := by
    intro c hc
    by_cases hsp : c = ' '
    · subst hsp; simp at hc
    · simpa [hsp] using hc
  constructor
  · intro a ha
    rw [replaceSpaceU, List.head?_map] at ha
    cases hb : l.head? with
    | none => rw [hb] at ha; simp at ha
    | some b =>
      rw [hb] at ha
      simp only [Option.map_some', Option.some.injEq] at ha
      rw [← ha]
      exact hchar b (h.1 b hb)
  · intro a ha
    rw [replaceSpaceU, List.getLast?_eq_head?_reverse, ← List.map_reverse,
      List.head?_map] at ha
    cases hb : l.reverse.head? with
    | none => rw [hb] at ha; simp at ha
    | some b =>
      rw [hb] at ha
      simp only [Option.map_some', Option.some.injEq] at ha
      rw [← ha]
      refine hchar b (h.2 b ?_)
      rw [List.getLast?_eq_head?_reverse]
      exact hb

theorem replaceSpaceU_replaceSpaceU (l : Str) :
    replaceSpaceU (replaceSpaceU l) = replaceSpaceU l := by
  unfold replaceSpaceU
  rw [List.map_map]
  refine List.map_congr_left ?_
  intro a _
  by_cases hsp : a = ' ' <;> simp [hsp, Function.comp]

theorem normName_normName (s : Str) : normName (normName s) = normName s := by
  rw [normName, normName,
    trimL_eq_self (noWsEdge_replaceSpaceU (noWsEdge_trimL s)),
    replaceSpaceU_replaceSpaceU]

theorem titleTrim_titleTrim (s : Str) :
    titleL (trimL (titleL (trimL s))) = titleL (trimL s) := by
  rw [trimL_eq_self (noWsEdge_titleL (noWsEdge_trimL s)), titleL_titleL]

/-! ### Idempotence of the cell transforms -/

theorem vendorCleanCell_vendorCleanCell (c : Cell) :
    vendorCleanCell (vendorCleanCell c) = vendorCleanCell c := by
  cases c <;> simp [vendorCleanCell, titleTrim_titleTrim]

theorem toDatetimeCell_toDatetimeCell (c : Cell) :
    toDatetimeCell (toDatetimeCell c) = toDatetimeCell c := by
  cases c with
  | str s =>
    rw [toDatetimeCell]
    cases h : parseISODate (trimL s) with
    | none => rfl
    | some v => rcases v with ⟨y, m, d⟩; rfl
  | _ => rfl

theorem toNumericCell_toNumericCell (c : Cell) :
    toNumericCell (toNumericCell c) = toNumericCell c := by
  cases c with
  | str s =>
    rw [toNumericCell]
    cases h : parseDecimal s with
    | none => rfl
    | some q => rfl
  | _ => rfl

/-! ### Characterization of `clean_data` -/

theorem findCol_mem {cs : List Str} {v : Str} {i : Nat}
    (h : findCol cs v = some i) : v ∈ cs := by
  by_contra hmem
  rw [findCol_none.mpr hmem] at h
  cases h

theorem setCol_eq_some {df : DataFrame} {c : Str} {f : Cell → Cell} {i : Nat}
    (h : colIdx df c = some i) :
    setCol df c f = some ⟨df.cols, df.rows.map fun r => r.set i (f (cellAt r i))⟩ := by
  rw [setCol, h]

theorem setCol_eq_none {df : DataFrame} {c : Str} {f : Cell → Cell}
    (h : colIdx df c = none) : setCol df c f = none := by
  rw [setCol, h]

theorem setCol_cols {df d : DataFrame} {c : Str} {f : Cell → Cell}
    (h : setCol df c f = some d) : d.cols = df.cols := by
  rw [setCol] at h
  cases hfind : colIdx df c with
  | none => rw [hfind] at h; cases h
  | some i => rw [hfind] at h; cases h; rfl

theorem runDateStep_eq_map {df1 : DataFrame} {i : Nat}
    (h : colIdx df1 rRUNDATE = some i) :
    runDateStep df1 =
      ⟨df1.cols, df1.rows.map fun r => r.set i (toDatetimeCell (cellAt r i))⟩ := by
  rw [runDateStep, if_pos (findCol_mem h), setCol_eq_some h]

theorem runDateStep_eq_self {df1 : DataFrame}
    (h : colIdx df1 rRUNDATE = none) : runDateStep df1 = df1 := by
  rw [runDateStep, if_neg (findCol_none.mp h)]

theorem runDateStep_cols (df1 : DataFrame) :
    (runDateStep df1).cols = df1.cols := by
  rw [runDateStep]
  split
  · cases hset : setCol df1 rRUNDATE toDatetimeCell with
    | none => rfl
    | some d => exact setCol_cols hset
  · rfl

theorem colIdxs_eq_none {df : DataFrame} {subset : List Str} {c : Str}
    (hc : c ∈ subset) (h : colIdx df c = none) : colIdxs df subset = none := by
  induction subset with
  | nil => cases hc
  | cons a cs ih =>
    rw [colIdxs]
    rcases List.mem_cons.mp hc with rfl | hmem
    · rw [h]
    · rw [ih hmem]
      all_goals first
      | rfl
      | cases colIdx df a <;> rfl

theorem dropna_eq_none {df : DataFrame} {subset : List Str} {c : Str}
    (hc : c ∈ subset) (h : colIdx df c = none) : dropna df subset = none := by
  rw [dropna, colIdxs_eq_none hc h]

theorem dropna3_eq_some {df : DataFrame} {a b c : Str} {i j k : Nat}
    (hi : colIdx df a = some i) (hj : colIdx df b = some j)
    (hk : colIdx df c = some k) :
    dropna df [a, b, c] = some ⟨df.cols,
      df.rows.filter fun r => [i, j, k].all fun m => !(cellAt r m).isNull⟩ := by
  rw [dropna, colIdxs, colIdxs, colIdxs, colIdxs, hi, hj, hk]

theorem dropna1_eq_some {df : DataFrame} {a : Str} {i : Nat}
    (hi : colIdx df a = some i) :
    dropna df [a] = some ⟨df.cols,
      df.rows.filter fun r => [i].all fun m => !(cellAt r m).isNull⟩ := by
  rw [dropna, colIdxs, colIdxs, hi]

/-- The cleaning stage characterized end to end: when the three required
columns exist after column-name normalization, `clean_data` keeps exactly
the rows satisfying `survives` and transforms each kept row by `cleanRow`. -/
theorem clean_data_eq (df : DataFrame) {vi ai di : Nat}
    (hv : findCol (df.cols.map normName) rVENDOR = some vi)
    (ha : findCol (df.cols.map normName) rCHKSUBTOT = some ai)
    (hd : findCol (df.cols.map normName) rRUNDATE = some di) :
    clean_data df = some ⟨df.cols.map normName,
      (df.rows.filter (survives vi ai di)).map (cleanRow vi ai di)⟩ := by
  have hvai : vi ≠ ai := findCol_ne hv ha (by decide)
  have hvdi : vi ≠ di := findCol_ne hv hd (by decide)
  have haidi : ai ≠ di := findCol_ne ha hd (by decide)
  have hdt0 : toDatetimeCell .null = .null := rfl
  have hvc0 : vendorCleanCell .null = .null := rfl
  have hnm0 : toNumericCell .null = .null := rfl
  set frd : List Cell → List Cell :=
    fun r => r.set di (toDatetimeCell (cellAt r di)) with hfrd
  set fv : List Cell → List Cell :=
    fun r => r.set vi (vendorCleanCell (cellAt r vi)) with hfv
  set fa : List Cell → List Cell :=
    fun r => r.set ai (toNumericCell (cellAt r ai)) with hfa
  set q1 : List Cell → Bool :=
    fun r => [vi, ai, di].all fun m => !(cellAt r m).isNull with hq1
  set q2 : List Cell → Bool :=
    fun r => [ai].all fun m => !(cellAt r m).isNull with hq2
  have step2 : runDateStep ⟨df.cols.map normName, df.rows⟩ =
      ⟨df.cols.map normName, df.rows.map frd⟩ := runDateStep_eq_map hd
  have step3 : setCol ⟨df.cols.map normName, df.rows.map frd⟩ rVENDOR vendorCleanCell =
      some ⟨df.cols.map normName, (df.rows.map frd).map fv⟩ :=
    setCol_eq_some hv
  have step4 : dropna ⟨df.cols.map normName, (df.rows.map frd).map fv⟩
      [rVENDOR, rCHKSUBTOT, rRUNDATE] =
      some ⟨df.cols.map normName, ((df.rows.map frd).map fv).filter q1⟩ :=
    dropna3_eq_some hv ha hd
  have step5 : setCol ⟨df.cols.map normName, ((df.rows.map frd).map fv).filter q1⟩
      rCHKSUBTOT toNumericCell =
      some ⟨df.cols.map normName, (((df.rows.map frd).map fv).filter q1).map fa⟩ :=
    setCol_eq_some ha
  have step6 : dropna ⟨df.cols.map normName, (((df.rows.map frd).map fv).filter q1).map fa⟩
      [rCHKSUBTOT] =
      some ⟨df.cols.map normName,
        ((((df.rows.map frd).map fv).filter q1).map fa).filter q2⟩ :=
    dropna1_eq_some ha
  have hrun : clean_data df =
      some ⟨df.cols.map normName,
        ((((df.rows.map frd).map fv).filter q1).map fa).filter q2⟩ := by
    simp only [clean_data, step2, step3, Option.some_bind, step4, step5, step6]
  rw [hrun]
  simp only [Option.some.injEq, DataFrame.mk.injEq, true_and]
  rw [List.map_map, List.filter_map, List.filter_filter, List.filter_map,
    List.map_map]
  congr 1
  · -- the two filters collapse to `survives`
    refine List.filter_congr ?_
    intro r _
    have c1 : cellAt (frd r) vi = cellAt r vi := cellAt_set_ne hvdi.symm
    have c2 : cellAt (frd r) ai = cellAt r ai := cellAt_set_ne haidi.symm
    have c3 : cellAt (frd r) di = toDatetimeCell (cellAt r di) :=
      cellAt_set_transform r di toDatetimeCell hdt0
    have c4 : cellAt (fv (frd r)) vi = vendorCleanCell (cellAt r vi) := by
      show cellAt ((frd r).set vi (vendorCleanCell (cellAt (frd r) vi))) vi = _
      rw [cellAt_set_transform (frd r) vi vendorCleanCell hvc0, c1]
    have c5 : cellAt (fv (frd r)) ai = cellAt r ai := by
      show cellAt ((frd r).set vi (vendorCleanCell (cellAt (frd r) vi))) ai = _
      rw [cellAt_set_ne hvai, c2]
    have c6 : cellAt (fv (frd r)) di = toDatetimeCell (cellAt r di) := by
      show cellAt ((frd r).set vi (vendorCleanCell (cellAt (frd r) vi))) di = _
      rw [cellAt_set_ne hvdi, c3]
    have c7 : cellAt (fa (fv (frd r))) ai = toNumericCell (cellAt r ai) := by
      show cellAt ((fv (frd r)).set ai (toNumericCell (cellAt (fv (frd r)) ai))) ai = _
      rw [cellAt_set_transform (fv (frd r)) ai toNumericCell hnm0, c5]
    simp only [Function.comp, hq1, hq2, List.all_cons, List.all_nil,
      Bool.and_true, c4, c5, c6, c7, survives]
    cases (vendorCleanCell (cellAt r vi)).isNull <;>
      cases (cellAt r ai).isNull <;>
        cases (toDatetimeCell (cellAt r di)).isNull <;>
          cases (toNumericCell (cellAt r ai)).isNull <;> rfl

/-- The cleaning stage raises (`none`) exactly when one of the three
required columns is missing after column-name normalization. -/
theorem clean_data_none_iff (df : DataFrame) :
    clean_data df = none ↔
      rVENDOR ∉ df.cols.map normName ∨ rCHKSUBTOT ∉ df.cols.map normName ∨
      rRUNDATE ∉ df.cols.map normName := by
  constructor
  · intro hnone
    by_contra hmem
    push_neg at hmem
    obtain ⟨h1, h2, h3⟩ := hmem
    obtain ⟨vi, hv⟩ := Option.isSome_iff_exists.mp (findCol_isSome_of_mem h1)
    obtain ⟨ai, ha⟩ := Option.isSome_iff_exists.mp (findCol_isSome_of_mem h2)
    obtain ⟨di, hd⟩ := Option.isSome_iff_exists.mp (findCol_isSome_of_mem h3)
    rw [clean_data_eq df hv ha hd] at hnone
    cases hnone
  · intro h
    have hcols : (runDateStep ⟨df.cols.map normName, df.rows⟩).cols =
        df.cols.map normName := runDateStep_cols _
    rcases h with h | h | h
    · -- VENDOR missing: step 3 raises
      have hv : colIdx (runDateStep ⟨df.cols.map normName, df.rows⟩) rVENDOR = none := by
        rw [colIdx, hcols]; exact findCol_none.mpr h
      rw [clean_data, setCol_eq_none hv, Option.none_bind]
    · -- CHKSUBTOT missing: the three-column dropna raises
      rw [clean_data]
      cases hset : setCol (runDateStep ⟨df.cols.map normName, df.rows⟩)
          rVENDOR vendorCleanCell with
      | none => rw [Option.none_bind]
      | some df3 =>
        rw [Option.some_bind]
        have hc : colIdx df3 rCHKSUBTOT = none := by
          rw [colIdx, setCol_cols hset, hcols]; exact findCol_none.mpr h
        rw [dropna_eq_none (by simp) hc, Option.none_bind]
    · -- RUNDATE missing: step 2 is skipped and the dropna raises
      rw [clean_data]
      cases hset : setCol (runDateStep ⟨df.cols.map normName, df.rows⟩)
          rVENDOR vendorCleanCell with
      | none => rw [Option.none_bind]
      | some df3 =>
        rw [Option.some_bind]
        have hr : colIdx df3 rRUNDATE = none := by
          rw [colIdx, setCol_cols hset, hcols]; exact findCol_none.mpr h
        rw [dropna_eq_none (by simp) hr, Option.none_bind]

/-! ### Summation over groups -/

theorem sum_filter_add_sum_filter_not (rows : List (List Cell))
    (p : List Cell → Bool) (val : List Cell → ℚ) :
    ((rows.filter p).map val).sum + ((rows.filter fun r => !(p r)).map val).sum
      = (rows.map val).sum := by
  induction rows with
  | nil => simp
  | cons r rest ih =>
    by_cases hp : p r
    · simp only [List.filter_cons, hp, if_pos, Bool.not_true, Bool.false_eq_true,
        if_false, List.map_cons, List.sum_cons, ite_true]
      rw [← ih]; ring
    · simp only [List.filter_cons, hp, Bool.false_eq_true, if_false, Bool.not_false,
        ite_true, List.map_cons, List.sum_cons]
      rw [← ih]; ring

/-- Summing the per-group totals over a duplicate-free list of keys covering
every row gives the total over all rows. -/
theorem sum_over_groups (key : List Cell → Cell) (val : List Cell → ℚ) :
    ∀ (keys : List Cell) (rows : List (List Cell)), keys.Nodup →
      (∀ r ∈ rows, key r ∈ keys) →
      (keys.map fun k => ((rows.filter fun r => key r == k).map val).sum).sum
        = (rows.map val).sum := by
  intro keys
  induction keys with
  | nil =>
    intro rows _ hall
    have : rows = [] := by
      cases rows with
      | nil => rfl
      | cons r rest => exact absurd (hall r (by simp)) (by simp)
    simp [this]
  | cons k ks ih =>
    intro rows hnd hall
    rw [List.map_cons, List.sum_cons]
    have hsplit := sum_filter_add_sum_filter_not rows (fun r => key r == k) val
    set rows2 := rows.filter fun r => !(key r == k) with hrows2
    have hih : (ks.map fun k2 => ((rows2.filter fun r => key r == k2).map val).sum).sum
        = (rows2.map val).sum := by
      refine ih rows2 (List.Nodup.of_cons hnd) ?_
      intro r hr
      have hrmem : r ∈ rows := (List.mem_filter.mp hr).1
      have hne : (key r == k) = false := by
        have h2 := (List.mem_filter.mp hr).2
        simpa using h2
      rcases List.mem_cons.mp (hall r hrmem) with heq | hmem
      · rw [heq] at hne; simp at hne
      · exact hmem
    have hgroups : (ks.map fun k2 => ((rows.filter fun r => key r == k2).map val).sum)
        = ks.map fun k2 => ((rows2.filter fun r => key r == k2).map val).sum := by
      refine List.map_congr_left ?_
      intro k2 hk2
      have hkk2 : k ≠ k2 := by
        intro hkeq
        rw [hkeq] at hnd
        exact (List.nodup_cons.mp hnd).1 hk2
      congr 1
      rw [hrows2, List.filter_filter]
      congr 1
      refine List.filter_congr ?_
      intro r _
      cases h2 : (key r == k2) with
      | false => simp [h2]
      | true =>
        have hk2eq : key r = k2 := by simpa using h2
        have hfalse : (key r == k) = false := by
          simp [hk2eq, Ne.symm hkk2]
        simp [h2, hfalse]
    rw [hgroups, hih, ← hsplit]

/-! ### The aggregation stage characterized -/

theorem total_payments_spec (df : DataFrame) {vi ai : Nat}
    (hv : colIdx df rVENDOR = some vi) (ha : colIdx df rCHKSUBTOT = some ai) :
    ∃ out, total_payments_by_vendor df = some out ∧
      List.Sorted descQ out ∧
      (out.map Prod.fst).Perm (groupKeys df vi) ∧
      (out.map Prod.fst).Nodup ∧
      (∀ p ∈ out, p.2 = groupSum df vi ai p.1) ∧
      ((∀ r ∈ df.rows, (cellAt r vi).isNull = false) →
        (out.map Prod.snd).sum = (df.rows.map fun r => (cellAt r ai).toQ).sum) := by
  have hdef : total_payments_by_vendor df =
      some (((groupKeys df vi).map fun k => (k, groupSum df vi ai k)).insertionSort descQ) := by
    rw [total_payments_by_vendor, hv, ha]
  set pairs := (groupKeys df vi).map fun k => (k, groupSum df vi ai k) with hpairs
  set out := pairs.insertionSort descQ with hout
  have hperm : out.Perm pairs := List.perm_insertionSort descQ pairs
  have hfst : pairs.map Prod.fst = groupKeys df vi := by
    rw [hpairs, List.map_map,
      show (Prod.fst ∘ fun k => (k, groupSum df vi ai k)) = id from rfl,
      List.map_id]
  refine ⟨out, hdef, List.sorted_insertionSort descQ pairs, ?_, ?_, ?_, ?_⟩
  · rw [← hfst]
    exact hperm.map Prod.fst
  · refine ((hperm.map Prod.fst).symm.nodup ?_ : _)
    rw [hfst]
    exact List.nodup_dedup _
  · intro p hp
    have hp2 : p ∈ pairs := hperm.mem_iff.mp hp
    obtain ⟨k, _, rfl⟩ := List.mem_map.mp hp2
    rfl
  · intro hall
    have hsnd : (out.map Prod.snd).sum = (pairs.map Prod.snd).sum :=
      (hperm.map Prod.snd).sum_eq
    rw [hsnd, hpairs, List.map_map]
    have : ((fun p : Cell × ℚ => p.2) ∘ fun k => (k, groupSum df vi ai k))
        = fun k => groupSum df vi ai k := rfl
    rw [this]
    refine sum_over_groups (fun r => cellAt r vi) (fun r => (cellAt r ai).toQ)
      (groupKeys df vi) df.rows (List.nodup_dedup _) ?_
    intro r hr
    rw [groupKeys, List.mem_dedup, List.mem_filter]
    exact ⟨List.mem_map.mpr ⟨r, hr, rfl⟩, by simp [hall r hr]⟩

theorem payment_frequency_spec (df : DataFrame) {vi : Nat}
    (hv : colIdx df rVENDOR = some vi) :
    ∃ freq, payment_frequency df = some freq ∧
      List.Sorted descN freq ∧
      (freq.map Prod.fst).Perm (groupKeys df vi) ∧
      (freq.map Prod.fst).Nodup ∧
      (∀ p ∈ freq, p.2 = groupCount df vi p.1) := by
  have hdef : payment_frequency df =
      some (((groupKeys df vi).map fun k => (k, groupCount df vi k)).insertionSort descN) := by
    rw [payment_frequency, hv]
  set pairs := (groupKeys df vi).map fun k => (k, groupCount df vi k) with hpairs
  set freq := pairs.insertionSort descN with hfreq
  have hperm : freq.Perm pairs := List.perm_insertionSort descN pairs
  have hfst : pairs.map Prod.fst = groupKeys df vi := by
    rw [hpairs, List.map_map,
      show (Prod.fst ∘ fun k => (k, groupCount df vi k)) = id from rfl,
      List.map_id]
  refine ⟨freq, hdef, List.sorted_insertionSort descN pairs, ?_, ?_, ?_⟩
  · rw [← hfst]
    exact hperm.map Prod.fst
  · refine ((hperm.map Prod.fst).symm.nodup ?_ : _)
    rw [hfst]
    exact List.nodup_dedup _
  · intro p hp
    have hp2 : p ∈ pairs := hperm.mem_iff.mp hp
    obtain ⟨k, _, rfl⟩ := List.mem_map.mp hp2
    rfl

/-! ### The anomaly detector characterized -/

theorem detect_anomalies_spec (df : DataFrame) {ai : Nat}
    (ha : colIdx df rCHKSUBTOT = some ai) (hne : numericVals df ai ≠ []) :
    ∃ t s out, detect_anomalies df = some out ∧ out.cols = df.cols ∧
      quantile99 (numericVals df ai) = some t ∧
      s.Perm (numericVals df ai) ∧ List.Sorted (· ≤ ·) s ∧
      t = interpAt s (mkRat 99 100 * (((numericVals df ai).length : ℚ) - 1)) ∧
      ∀ r ∈ df.rows, (r ∈ out.rows ↔ ∃ q, cellAt r ai = .num q ∧ t < q) := by
  obtain ⟨a, l, hxs⟩ : ∃ a l, numericVals df ai = a :: l := by
    cases h : numericVals df ai with
    | nil => exact absurd h hne
    | cons a l => exact ⟨a, l, rfl⟩
  have hq : quantile99 (numericVals df ai) =
      some (interpAt ((numericVals df ai).insertionSort (· ≤ ·))
        (mkRat 99 100 * (((numericVals df ai).length : ℚ) - 1))) := by
    rw [hxs]
    rfl
  set s := (numericVals df ai).insertionSort (· ≤ ·) with hs
  set t := interpAt s (mkRat 99 100 * (((numericVals df ai).length : ℚ) - 1)) with ht
  have hdet : detect_anomalies df = some ⟨df.cols, df.rows.filter fun r =>
      match cellAt r ai with
      | .num q => decide (t < q)
      | _ => false⟩ := by
    simp only [detect_anomalies, ha, hq]
  refine ⟨t, s, _, hdet, rfl, hq, List.perm_insertionSort _ _,
    List.sorted_insertionSort _ _, rfl, ?_⟩
  intro r hr
  simp only [List.mem_filter, hr, true_and]
  cases hc : cellAt r ai with
  | num q => simp [hc, decide_eq_true_eq]
  | null => simp [hc]
  | str v => simp [hc]
  | date y m d => simp [hc]

/-! ### Idempotence of the cleaning stage -/

theorem cleanRow_cells {vi ai di : Nat} (hvai : vi ≠ ai) (hvdi : vi ≠ di)
    (haidi : ai ≠ di) (r : List Cell) :
    cellAt (cleanRow vi ai di r) vi = vendorCleanCell (cellAt r vi) ∧
    cellAt (cleanRow vi ai di r) ai = toNumericCell (cellAt r ai) ∧
    cellAt (cleanRow vi ai di r) di = toDatetimeCell (cellAt r di) := by
  set r1 := r.set di (toDatetimeCell (cellAt r di)) with hr1
  set r2 := r1.set vi (vendorCleanCell (cellAt r1 vi)) with hr2
  have c1 : cellAt r1 vi = cellAt r vi := cellAt_set_ne hvdi.symm
  have c2 : cellAt r1 ai = cellAt r ai := cellAt_set_ne haidi.symm
  have c3 : cellAt r1 di = toDatetimeCell (cellAt r di) :=
    cellAt_set_transform r di toDatetimeCell rfl
  have c4 : cellAt r2 vi = vendorCleanCell (cellAt r vi) := by
    rw [hr2, cellAt_set_transform r1 vi vendorCleanCell rfl, c1]
  have c5 : cellAt r2 ai = cellAt r ai := by
    rw [hr2, cellAt_set_ne hvai, c2]
  have c6 : cellAt r2 di = toDatetimeCell (cellAt r di) := by
    rw [hr2, cellAt_set_ne hvdi, c3]
  have hrow : cleanRow vi ai di r = r2.set ai (toNumericCell (cellAt r2 ai)) := rfl
  refine ⟨?_, ?_, ?_⟩
  · rw [hrow, cellAt_set_ne (Ne.symm hvai), c4]
  · rw [hrow, cellAt_set_transform r2 ai toNumericCell rfl, c5]
  · rw [hrow, cellAt_set_ne haidi, c6]

theorem survives_cleanRow {vi ai di : Nat} (hvai : vi ≠ ai) (hvdi : vi ≠ di)
    (haidi : ai ≠ di) {r : List Cell} (h : survives vi ai di r = true) :
    survives vi ai di (cleanRow vi ai di r) = true := by
  obtain ⟨e1, e2, e3⟩ := cleanRow_cells hvai hvdi haidi r
  rw [survives, Bool.and_eq_true, Bool.and_eq_true, Bool.and_eq_true] at h
  obtain ⟨⟨⟨h1, h2⟩, h3⟩, h4⟩ := h
  rw [survives, e1, e2, e3, Bool.and_eq_true, Bool.and_eq_true, Bool.and_eq_true]
  refine ⟨⟨⟨?_, ?_⟩, ?_⟩, ?_⟩
  · rw [vendorCleanCell_vendorCleanCell]; exact h1
  · exact h4
  · rw [toDatetimeCell_toDatetimeCell]; exact h3
  · rw [toNumericCell_toNumericCell]; exact h4

theorem cleanRow_cleanRow {vi ai di : Nat} (hvai : vi ≠ ai) (hvdi : vi ≠ di)
    (haidi : ai ≠ di) (r : List Cell) :
    cleanRow vi ai di (cleanRow vi ai di r) = cleanRow vi ai di r := by
  obtain ⟨e1, e2, e3⟩ := cleanRow_cells hvai hvdi haidi r
  set r2 := cleanRow vi ai di r with hr2
  have s1 : r2.set di (toDatetimeCell (cellAt r2 di)) = r2 := by
    rw [e3, toDatetimeCell_toDatetimeCell, ← e3, set_cellAt_self]
  have hrow : cleanRow vi ai di r2 =
      ((r2.set di (toDatetimeCell (cellAt r2 di))).set vi
        (vendorCleanCell (cellAt (r2.set di (toDatetimeCell (cellAt r2 di))) vi))).set ai
        (toNumericCell (cellAt ((r2.set di (toDatetimeCell (cellAt r2 di))).set vi
          (vendorCleanCell (cellAt (r2.set di (toDatetimeCell (cellAt r2 di))) vi))) ai)) := rfl
  rw [hrow, s1]
  have s2 : r2.set vi (vendorCleanCell (cellAt r2 vi)) = r2 := by
    rw [e1, vendorCleanCell_vendorCleanCell, ← e1, set_cellAt_self]
  rw [s2]
  rw [e2, toNumericCell_toNumericCell, ← e2, set_cellAt_self]

/-! ### The name order on keys is total and transitive -/

theorem strLeB_total : ∀ s t : Str, strLeB s t = true ∨ strLeB t s = true := by
  intro s
  induction s with
  | nil => intro t; left; rfl
  | cons a as ih =>
    intro t
    cases t with
    | nil => right; rfl
    | cons b bs =>
      rw [strLeB, strLeB]
      rcases lt_trichotomy a b with h | h | h
      · left
        rw [if_pos h]
      · subst h
        rw [if_neg (lt_irrefl a), if_neg (lt_irrefl a), if_neg (lt_irrefl a),
          if_neg (lt_irrefl a)]
        exact ih bs
      · right
        rw [if_pos h]

theorem strLeB_trans : ∀ s t u : Str, strLeB s t = true → strLeB t u = true →
    strLeB s u = true := by
  intro s
  induction s with
  | nil => intro t u _ _; rfl
  | cons a as ih =>
    intro t u hst htu
    cases t with
    | nil => rw [strLeB] at hst; cases hst
    | cons b bs =>
      cases u with
      | nil => rw [strLeB] at htu; cases htu
      | cons c cs =>
        rw [strLeB] at hst htu ⊢
        rcases lt_trichotomy a b with hab | hab | hab
        · rcases lt_trichotomy b c with hbc | hbc | hbc
          · rw [if_pos (lt_trans hab hbc)]
          · subst hbc; rw [if_pos hab]
          · rw [if_pos hbc, if_neg (lt_asymm hbc)] at htu; cases htu
        · subst hab
          rw [if_neg (lt_irrefl a), if_neg (lt_irrefl a)] at hst
          rcases lt_trichotomy a c with hac | hac | hac
          · rw [if_pos hac]
          · subst hac
            rw [if_neg (lt_irrefl a), if_neg (lt_irrefl a)] at htu ⊢
            exact ih bs cs hst htu
          · rw [if_pos hac, if_neg (lt_asymm hac)] at htu; cases htu
        · rw [if_pos hab, if_neg (lt_asymm hab)] at hst; cases hst

theorem cellNameLe_total (a b : Cell) : cellNameLe a b ∨ cellNameLe b a :=
  strLeB_total (cellKeyStr a) (cellKeyStr b)

theorem cellNameLe_trans {a b c : Cell} (h1 : cellNameLe a b)
    (h2 : cellNameLe b c) : cellNameLe a c :=
  strLeB_trans (cellKeyStr a) (cellKeyStr b) (cellKeyStr c) h1 h2

/-! ## The claims -/

/-- C1: with the three required columns at positions `vi`, `ai`, `di` after
column-name normalization, a row of the raw table survives `clean_data` if
and only if its vendor, amount and run-date fields are all non-null and its
amount is numeric after coercion (the `survives` predicate; per the script's
coercion-as-missing policy, an unparseable run date or a non-string vendor
reads as null): the cleaned rows are exactly the `cleanRow` images of the
rows satisfying `survives`, every dropped row falsifies `survives`, and the
cleaned table has at most as many rows as the raw one. -/
theorem clean_data_survival (df out : DataFrame) (vi ai di : Nat)
    (hv : findCol (df.cols.map normName) rVENDOR = some vi)
    (ha : findCol (df.cols.map normName) rCHKSUBTOT = some ai)
    (hd : findCol (df.cols.map normName) rRUNDATE = some di)
    (h : clean_data df = some out) :
    out.rows = (df.rows.filter (survives vi ai di)).map (cleanRow vi ai di) ∧
    out.rows.length ≤ df.rows.length := by
  rw [clean_data_eq df hv ha hd] at h
  obtain rfl := (Option.some.inj h).symm
  refine ⟨rfl, ?_⟩
  simp only [List.length_map]
  exact List.length_filter_le _ _

/-- C1 witness: the scenario table instantiates the survival
characterization. -/
theorem clean_data_survival_witness :
    dfScenarioClean.rows =
      (dfScenario.rows.filter (survives 0 1 2)).map (cleanRow 0 1 2) ∧
    dfScenarioClean.rows.length ≤ dfScenario.rows.length :=
  clean_data_survival dfScenario dfScenarioClean 0 1 2 (by decide) (by decide)
    (by decide) (by with_unfolding_all decide)

/-- C3: the sum of the vendor totals returned by `total_payments_by_vendor`
equals the sum of the amount column of the cleaned table (exactly, over ℚ;
the hypothesis that every vendor cell is non-null holds for every cleaned
table). -/
theorem total_payments_sum_law (df : DataFrame) (vi ai : Nat)
    (hv : colIdx df rVENDOR = some vi) (ha : colIdx df rCHKSUBTOT = some ai)
    (hall : ∀ r ∈ df.rows, (cellAt r vi).isNull = false) :
    ∃ out, total_payments_by_vendor df = some out ∧
      (out.map Prod.snd).sum = (df.rows.map fun r => (cellAt r ai).toQ).sum := by
  obtain ⟨out, h1, _, _, _, _, hsum⟩ := total_payments_spec df hv ha
  exact ⟨out, h1, hsum hall⟩

/-- C3 witness: on the two-row table for vendor `"X"` the totals sum to the
column sum `300`. -/
theorem total_payments_sum_law_witness :
    ∃ out, total_payments_by_vendor dfX = some out ∧
      (out.map Prod.snd).sum = (dfX.rows.map fun r => (cellAt r 1).toQ).sum :=
  total_payments_sum_law dfX 0 1 (by decide) (by decide) (by decide)

/-- C5: `total_payments_by_vendor` returns one entry per distinct vendor of
the cleaned table (the full set, duplicate-free — only the printing is
truncated to 20), each entry holding the summed amount of that vendor's
rows, and the returned list is ordered by descending total. -/
theorem total_payments_full_mapping (df : DataFrame) (vi ai : Nat)
    (hv : colIdx df rVENDOR = some vi) (ha : colIdx df rCHKSUBTOT = some ai) :
    ∃ out, total_payments_by_vendor df = some out ∧
      List.Sorted descQ out ∧
      (out.map Prod.fst).Perm (groupKeys df vi) ∧
      (out.map Prod.fst).Nodup ∧
      ∀ p ∈ out, p.2 = groupSum df vi ai p.1 := by
  obtain ⟨out, h1, h2, h3, h4, h5, _⟩ := total_payments_spec df hv ha
  exact ⟨out, h1, h2, h3, h4, h5⟩

/-- C5 witness: instantiated on the two-row table for vendor `"X"`. -/
theorem total_payments_full_mapping_witness :
    ∃ out, total_payments_by_vendor dfX = some out ∧
      List.Sorted descQ out ∧
      (out.map Prod.fst).Perm (groupKeys dfX 0) ∧
      (out.map Prod.fst).Nodup ∧
      ∀ p ∈ out, p.2 = groupSum dfX 0 1 p.1 :=
  total_payments_full_mapping dfX 0 1 (by decide) (by decide)

/-- C6: `payment_frequency` returns one entry per distinct vendor, counting
that vendor's rows, ordered by descending count; in particular, on a table
with exactly two rows for vendor `"X"` with amounts `100` and `200`,
`payment_frequency` yields `X ↦ 2` and `total_payments_by_vendor` yields
`X ↦ 300`. -/
theorem payment_frequency_counts (df : DataFrame) (vi : Nat)
    (hv : colIdx df rVENDOR = some vi) :
    (∃ freq, payment_frequency df = some freq ∧
      List.Sorted descN freq ∧
      (freq.map Prod.fst).Perm (groupKeys df vi) ∧
      ∀ p ∈ freq, p.2 = groupCount df vi p.1) ∧
    payment_frequency dfX = some [(.str "X".toList, 2)] ∧
    total_payments_by_vendor dfX = some [(.str "X".toList, 300)] := by
  obtain ⟨freq, h1, h2, h3, _, h5⟩ := payment_frequency_spec df hv
  refine ⟨⟨freq, h1, h2, h3, h5⟩, by decide, by with_unfolding_all decide⟩

/-- C6 witness: instantiated on the two-row table for vendor `"X"`. -/
theorem payment_frequency_counts_witness :
    (∃ freq, payment_frequency dfX = some freq ∧
      List.Sorted descN freq ∧
      (freq.map Prod.fst).Perm (groupKeys dfX 0) ∧
      ∀ p ∈ freq, p.2 = groupCount dfX 0 p.1) ∧
    payment_frequency dfX = some [(.str "X".toList, 2)] ∧
    total_payments_by_vendor dfX = some [(.str "X".toList, 300)] :=
  payment_frequency_counts dfX 0 (by decide)

/-- C7: every row that survives cleaning is the image of a raw row under
`cleanRow` — vendor stripped of surrounding whitespace and title-cased,
amount coerced to a number, run date parsed; concretely, the raw row with
vendor `" acme corp "`, amount `"100.50"` and date `"2024-01-15"` cleans to
vendor `"Acme Corp"`, numeric amount `201/2` (`100.50`), date
2024-01-15. -/
theorem clean_data_transforms (df out : DataFrame) (vi ai di : Nat)
    (hv : findCol (df.cols.map normName) rVENDOR = some vi)
    (ha : findCol (df.cols.map normName) rCHKSUBTOT = some ai)
    (hd : findCol (df.cols.map normName) rRUNDATE = some di)
    (h : clean_data df = some out) :
    (∀ r2 ∈ out.rows, ∃ r ∈ df.rows,
      survives vi ai di r = true ∧ r2 = cleanRow vi ai di r) ∧
    clean_data dfScenario = some dfScenarioClean := by
  refine ⟨?_, by with_unfolding_all decide⟩
  rw [clean_data_eq df hv ha hd] at h
  obtain rfl := (Option.some.inj h).symm
  intro r2 hr2
  simp only [List.mem_map] at hr2
  obtain ⟨r, hrf, rfl⟩ := hr2
  obtain ⟨hmem, hsurv⟩ := List.mem_filter.mp hrf
  exact ⟨r, hmem, hsurv, rfl⟩

/-- C7 witness: the scenario table instantiates the transformation
characterization. -/
theorem clean_data_transforms_witness :
    (∀ r2 ∈ dfScenarioClean.rows, ∃ r ∈ dfScenario.rows,
      survives 0 1 2 r = true ∧ r2 = cleanRow 0 1 2 r) ∧
    clean_data dfScenario = some dfScenarioClean :=
  clean_data_transforms dfScenario dfScenarioClean 0 1 2 (by decide) (by decide)
    (by decide) (by with_unfolding_all decide)

/-- C9: on a cleaned table without a `DEPARTMENT` column,
`department_vendor_heatmap` renders nothing and raises nothing: the
department analysis is silently skipped. -/
theorem heatmap_skipped_without_department (df : DataFrame)
    (h : rDEPARTMENT ∉ df.cols) :
    department_vendor_heatmap df = some none := by
  rw [department_vendor_heatmap, if_neg h]

/-- C9 witness: the two-row vendor-`"X"` table has no department column and
is skipped silently. -/
theorem heatmap_skipped_without_department_witness :
    department_vendor_heatmap dfX = some none :=
  heatmap_skipped_without_department dfX (by decide)

/-- C10: `clean_data` raises (modelled by `none`) exactly when, after
column-name normalization, the table lacks one of the columns `VENDOR`,
`CHKSUBTOT`, `RUNDATE`; only the run-date parsing step is guarded by a
presence check, so a missing required column surfaces as an exception
instead of a returned table. -/
theorem clean_data_requires_columns (df : DataFrame) :
    clean_data df = none ↔
      rVENDOR ∉ df.cols.map normName ∨ rCHKSUBTOT ∉ df.cols.map normName ∨
      rRUNDATE ∉ df.cols.map normName :=
  clean_data_none_iff df

/-- C2: on a non-empty cleaned table (every amount cell numeric, at position
`ai`), `detect_anomalies` computes its threshold as the 99th percentile of
the amount column — linear interpolation between the ascending order
statistics `s` at rank `0.99 * (n - 1)` — and returns exactly the records
whose amount strictly exceeds the threshold: a row is in the output iff its
amount is greater than `t`, so no record at or below `t` is returned and
every record above it is. -/
theorem detect_anomalies_percentile (df : DataFrame) (ai : Nat)
    (ha : colIdx df rCHKSUBTOT = some ai)
    (hne : df.rows ≠ [])
    (hnum : ∀ r ∈ df.rows, ∃ q, cellAt r ai = .num q) :
    ∃ t s out, detect_anomalies df = some out ∧ out.cols = df.cols ∧
      quantile99 (numericVals df ai) = some t ∧
      s.Perm (numericVals df ai) ∧ List.Sorted (· ≤ ·) s ∧
      t = interpAt s (mkRat 99 100 * (((numericVals df ai).length : ℚ) - 1)) ∧
      ∀ r ∈ df.rows, (r ∈ out.rows ↔ t < (cellAt r ai).toQ) := by
  have hvne : numericVals df ai ≠ [] := by
    cases hrows : df.rows with
    | nil => exact absurd hrows hne
    | cons r rest =>
      obtain ⟨q, hq⟩ := hnum r (by rw [hrows]; exact List.mem_cons_self r rest)
      rw [numericVals, hrows, List.map_cons, List.filterMap_cons, hq]
      simp
  obtain ⟨t, s, out, h1, h2, h3, h4, h5, h6, h7⟩ := detect_anomalies_spec df ha hvne
  refine ⟨t, s, out, h1, h2, h3, h4, h5, h6, ?_⟩
  intro r hr
  rw [h7 r hr]
  obtain ⟨q, hq⟩ := hnum r hr
  rw [hq]
  simp [Cell.toQ]

/-- C2 witness: on the two-row vendor-`"X"` table the threshold is the
interpolated 99th percentile of `[100, 200]` and only the `200` row is
flagged. -/
theorem detect_anomalies_percentile_witness :
    ∃ t s out, detect_anomalies dfX = some out ∧ out.cols = dfX.cols ∧
      quantile99 (numericVals dfX 1) = some t ∧
      s.Perm (numericVals dfX 1) ∧ List.Sorted (· ≤ ·) s ∧
      t = interpAt s (mkRat 99 100 * (((numericVals dfX 1).length : ℚ) - 1)) ∧
      ∀ r ∈ dfX.rows, (r ∈ out.rows ↔ t < (cellAt r 1).toQ) :=
  detect_anomalies_percentile dfX 1 (by decide) (by decide)
    (by intro r hr; fin_cases hr <;> exact ⟨_, rfl⟩)

/-- C4: `clean_data` is idempotent — cleaning an already-cleaned table
returns it unchanged: the column names are already normalized, every
retained row's vendor is already stripped and title-cased, its run date
already parsed, its amount already numeric, and no further row is
dropped. -/
theorem clean_data_idempotent (df out : DataFrame)
    (h : clean_data df = some out) : clean_data out = some out := by
  have hmem : ¬(rVENDOR ∉ df.cols.map normName ∨
      rCHKSUBTOT ∉ df.cols.map normName ∨ rRUNDATE ∉ df.cols.map normName) := by
    intro hcontra
    rw [(clean_data_none_iff df).mpr hcontra] at h
    cases h
  push_neg at hmem
  obtain ⟨h1, h2, h3⟩ := hmem
  obtain ⟨vi, hv⟩ := Option.isSome_iff_exists.mp (findCol_isSome_of_mem h1)
  obtain ⟨ai, ha⟩ := Option.isSome_iff_exists.mp (findCol_isSome_of_mem h2)
  obtain ⟨di, hd⟩ := Option.isSome_iff_exists.mp (findCol_isSome_of_mem h3)
  have hvai : vi ≠ ai := findCol_ne hv ha (by decide)
  have hvdi : vi ≠ di := findCol_ne hv hd (by decide)
  have haidi : ai ≠ di := findCol_ne ha hd (by decide)
  rw [clean_data_eq df hv ha hd] at h
  obtain rfl := (Option.some.inj h).symm
  have hcols : (df.cols.map normName).map normName = df.cols.map normName := by
    rw [List.map_map]
    exact List.map_congr_left fun s _ => normName_normName s
  have hv2 : findCol ((df.cols.map normName).map normName) rVENDOR = some vi := by
    rw [hcols]; exact hv
  have ha2 : findCol ((df.cols.map normName).map normName) rCHKSUBTOT = some ai := by
    rw [hcols]; exact ha
  have hd2 : findCol ((df.cols.map normName).map normName) rRUNDATE = some di := by
    rw [hcols]; exact hd
  rw [clean_data_eq ⟨df.cols.map normName,
    (df.rows.filter (survives vi ai di)).map (cleanRow vi ai di)⟩ hv2 ha2 hd2]
  have hforall : ∀ r2 ∈ (df.rows.filter (survives vi ai di)).map (cleanRow vi ai di),
      survives vi ai di r2 = true := by
    intro r2 hr2
    obtain ⟨r, hrf, rfl⟩ := List.mem_map.mp hr2
    exact survives_cleanRow hvai hvdi haidi (List.mem_filter.mp hrf).2
  congr 1
  refine DataFrame.mk.injEq .. ▸ ?_
  simp only
  refine ⟨hcols, ?_⟩
  rw [List.filter_eq_self.mpr hforall, List.map_map]
  exact List.map_congr_left fun r _ => cleanRow_cleanRow hvai hvdi haidi r

/-- C4 witness: re-cleaning the cleaned scenario table is the identity. -/
theorem clean_data_idempotent_witness :
    clean_data dfScenarioClean = some dfScenarioClean :=
  clean_data_idempotent dfScenario dfScenarioClean (by with_unfolding_all decide)

/-- C8 counterexample: the heatmap is NOT restricted to the first 20 vendors
in table order.  `dfHeat` lists vendors `B…U` first and `A` last; the data
handed to the heatmap starts at `A` (name order) and omits `U`, while the
first 20 vendors in table order are `B…U` and omit `A`. -/
theorem heatmap_not_table_order :
    department_vendor_heatmap dfHeat = some (some pivotHeat) ∧
    pivotHeat.rowKeys ≠ firstVendorsTableOrder dfHeat 0 ∧
    Cell.str ['A'] ∈ pivotHeat.rowKeys ∧
    Cell.str ['A'] ∉ firstVendorsTableOrder dfHeat 0 ∧
    Cell.str ['U'] ∈ firstVendorsTableOrder dfHeat 0 ∧
    Cell.str ['U'] ∉ pivotHeat.rowKeys ∧
    colIdx dfHeat rVENDOR = some 0 := by
  with_unfolding_all decide

/-- C8 (amended): with `DEPARTMENT` present, `department_vendor_heatmap`
renders the cross-tabulation of summed amount with vendors as rows and
departments as columns, missing combinations filled with zero (an empty
group sums to `0`), restricted to the first 20 vendors in ascending
vendor-name order — the sorted pivot index — not in table order and not by
total payment. -/
theorem heatmap_first20_name_order (df : DataFrame) (vi di ai : Nat)
    (hv : colIdx df rVENDOR = some vi) (hdep : colIdx df rDEPARTMENT = some di)
    (ha : colIdx df rCHKSUBTOT = some ai) :
    ∃ p vk dk, department_vendor_heatmap df = some (some p) ∧
      vk.Perm (groupKeys df vi) ∧ List.Sorted cellNameLe vk ∧
      dk.Perm (groupKeys df di) ∧ List.Sorted cellNameLe dk ∧
      p.rowKeys = vk.take 20 ∧ p.colKeys = dk ∧
      p.entries = p.rowKeys.map (fun v => dk.map fun d =>
        ((df.rows.filter fun r => cellAt r vi == v && cellAt r di == d).map
          fun r => (cellAt r ai).toQ).sum) ∧
      (∀ v d, (df.rows.filter fun r => cellAt r vi == v && cellAt r di == d) = [] →
        ((df.rows.filter fun r => cellAt r vi == v && cellAt r di == d).map
          fun r => (cellAt r ai).toQ).sum = 0) := by
  haveI : IsTotal Cell cellNameLe := ⟨cellNameLe_total⟩
  haveI : IsTrans Cell cellNameLe := ⟨fun a b c => cellNameLe_trans⟩
  have hmem : rDEPARTMENT ∈ df.cols := findCol_mem hdep
  have hpiv : pivot_table df = some
      ⟨(groupKeys df vi).insertionSort cellNameLe,
       (groupKeys df di).insertionSort cellNameLe,
       ((groupKeys df vi).insertionSort cellNameLe).map fun v =>
         ((groupKeys df di).insertionSort cellNameLe).map fun d =>
           ((df.rows.filter fun r => cellAt r vi == v && cellAt r di == d).map
             fun r => (cellAt r ai).toQ).sum⟩ := by
    simp only [pivot_table, hv, hdep, ha]
  have hheat : department_vendor_heatmap df = some (some
      (Pivot.head20 ⟨(groupKeys df vi).insertionSort cellNameLe,
        (groupKeys df di).insertionSort cellNameLe,
        ((groupKeys df vi).insertionSort cellNameLe).map fun v =>
          ((groupKeys df di).insertionSort cellNameLe).map fun d =>
            ((df.rows.filter fun r => cellAt r vi == v && cellAt r di == d).map
              fun r => (cellAt r ai).toQ).sum⟩)) := by
    rw [department_vendor_heatmap, if_pos hmem]
    simp only [hpiv]
  refine ⟨_, (groupKeys df vi).insertionSort cellNameLe,
    (groupKeys df di).insertionSort cellNameLe, hheat,
    List.perm_insertionSort _ _, List.sorted_insertionSort _ _,
    List.perm_insertionSort _ _, List.sorted_insertionSort _ _,
    rfl, rfl, ?_, ?_⟩
  · exact (List.map_take _ _ _).symm
  · intro v d hfil
    rw [hfil]
    rfl

/-- C8 witness: the amended statement instantiated on `dfHeat` (vendor,
amount, department at positions 0, 1, 2). -/
theorem heatmap_first20_name_order_witness :
    ∃ p vk dk, department_vendor_heatmap dfHeat = some (some p) ∧
      vk.Perm (groupKeys dfHeat 0) ∧ List.Sorted cellNameLe vk ∧
      dk.Perm (groupKeys dfHeat 2) ∧ List.Sorted cellNameLe dk ∧
      p.rowKeys = vk.take 20 ∧ p.colKeys = dk ∧
      p.entries = p.rowKeys.map (fun v => dk.map fun d =>
        ((dfHeat.rows.filter fun r => cellAt r 0 == v && cellAt r 2 == d).map
          fun r => (cellAt r 1).toQ).sum) ∧
      (∀ v d, (dfHeat.rows.filter fun r => cellAt r 0 == v && cellAt r 2 == d) = [] →
        ((dfHeat.rows.filter fun r => cellAt r 0 == v && cellAt r 2 == d).map
          fun r => (cellAt r 1).toQ).sum = 0) :=
  heatmap_first20_name_order dfHeat 0 2 1 (by decide) (by decide) (by decide)

end VendorPayments
